import Mathlib

/-!
Verification of the agent discovery and registration core.

Shallow embedding of the plugin discovery, registration and lifecycle
engine: the metadata model and filter (app/agents/base.py), the
registration store and discovery engine (app/agents/registry.py), and
the facade (app/agents/manager.py).

Python dictionaries are modelled as association lists in insertion
order, exceptions as Except values, the filesystem as boolean oracles,
and the decorator-import side effects of a discovery pass as an explicit
list of the registrations the imported modules would perform.
-/

namespace AgentCore

/-- Discovery pattern enumeration; the source keeps only the decorator
pattern (DiscoveryPattern in base.py). -/
inductive DiscoveryPattern where
  | DECORATOR
deriving DecidableEq, Repr

/-- The produced objects are opaque to the core; an abstract carrier. -/
structure Agent where
  id : Nat
deriving DecidableEq, Repr

instance {ε α : Type} [DecidableEq ε] [DecidableEq α] : DecidableEq (Except ε α) := fun a b =>
  match a, b with
  | .ok x, .ok y =>
      if h : x = y then .isTrue (by rw [h])
      else .isFalse (by intro hc; injection hc; contradiction)
  | .error x, .error y =>
      if h : x = y then .isTrue (by rw [h])
      else .isFalse (by intro hc; injection hc; contradiction)
  | .ok _, .error _ => .isFalse (by intro hc; cases hc)
  | .error _, .ok _ => .isFalse (by intro hc; cases hc)

/-- A factory is a zero-argument callable that either returns an object
or raises; its one invocation is modelled by this value. -/
abbrev AgentFactory := Except String Agent

/-- AgentMetadata (base.py): descriptive information about one
registrable item. Custom attributes are modelled as a string-keyed
association list with string values (opaque pass-through with equality). -/
structure AgentMetadata where
  name : String
  pattern : DiscoveryPattern
  tags : List String := []
  priority : Int := 50
  enabled : Bool := true
  dependencies : List String := []
  customAttributes : List (String × String) := []
deriving DecidableEq, Repr

/-- AgentMetadata construction including the validation that
AgentMetadata.post_init performs (base.py lines 46-59). The isinstance
checks on tags and dependencies are vacuous here because the embedding
is typed; the name and priority checks are the reachable ones. -/
def mkAgentMetadata (name : String) (pattern : DiscoveryPattern) (tags : List String)
    (priority : Int) (enabled : Bool) (dependencies : List String)
    (customAttributes : List (String × String)) : Except String AgentMetadata :=
  if name = "" then
    .error "Agent name must be a non-empty string"
  else if priority < 0 then
    .error "Priority must be a positive integer"
  else
    .ok { name, pattern, tags, priority, enabled, dependencies, customAttributes }

/-- AgentDefinition (base.py): the accepted, finalized registration. -/
structure AgentDefinition where
  name : String
  factoryFunction : AgentFactory
  metadata : AgentMetadata
  modulePath : String
  sourceFile : String
deriving DecidableEq, Repr

/-- AgentDefinition construction including the validation that
AgentDefinition.post_init performs (base.py lines 76-93). The callable
and isinstance checks are vacuous in the typed embedding; the name,
name-match and source-file-existence checks remain. The filesystem is
the oracle fsExists. -/
def mkAgentDefinition (fsExists : String → Bool) (name : String) (factory : AgentFactory)
    (metadata : AgentMetadata) (modulePath : String) (sourceFile : String) :
    Except String AgentDefinition :=
  if name = "" then
    .error "Agent name must be a non-empty string"
  else if name ≠ metadata.name then
    .error "Agent name must match metadata name"
  else if sourceFile ≠ "unknown" && !(fsExists sourceFile) then
    .error ("Source file does not exist: " ++ sourceFile)
  else
    .ok { name, factoryFunction := factory, metadata, modulePath, sourceFile }

/-- AgentFilter (base.py): criteria for selecting agents. -/
structure AgentFilter where
  tags : Option (List String) := none
  enabled : Option Bool := none
  pattern : Option DiscoveryPattern := none
  priorityMin : Option Int := none
  priorityMax : Option Int := none
  customCriteria : List (String × String) := []
deriving DecidableEq, Repr

/-- Python dict lookup on a string-keyed association list. -/
def lookupAttr : List (String × String) → String → Option String
  | [], _ => none
  | (k, v) :: rest, key => if k = key then some v else lookupAttr rest key

/-- AgentFilter.matches (base.py lines 110-148): true iff every
configured criterion holds. The tag criterion applies only when the tag
list is present AND non-empty, mirroring the Python truthiness test
`if self.tags is not None and self.tags`. -/
def AgentFilter.matches (f : AgentFilter) (agentDef : AgentDefinition) : Bool :=
  let metadata := agentDef.metadata
  (match f.enabled with
   | none => true
   | some e => metadata.enabled == e) &&
  (match f.pattern with
   | none => true
   | some p => metadata.pattern == p) &&
  (match f.priorityMin with
   | none => true
   | some m => !(metadata.priority < m)) &&
  (match f.priorityMax with
   | none => true
   | some m => !(metadata.priority > m)) &&
  (match f.tags with
   | none => true
   | some ts =>
      if ts.isEmpty then true
      else ts.any (fun t => metadata.tags.contains t)) &&
  (f.customCriteria.all (fun kv =>
     match lookupAttr metadata.customAttributes kv.1 with
     | none => false
     | some w => w == kv.2))

/-- Lexicographic less-or-equal on code points, the order Python uses
to compare the name component of the sort key in list_agents. -/
def strLeChars : List Char → List Char → Bool
  | [], _ => true
  | _ :: _, [] => false
  | a :: as, b :: bs =>
      if a.toNat < b.toNat then true
      else if b.toNat < a.toNat then false
      else strLeChars as bs

/-- Strict lexicographic order on code points. -/
def strLtChars : List Char → List Char → Bool
  | [], [] => false
  | [], _ :: _ => true
  | _ :: _, [] => false
  | a :: as, b :: bs =>
      if a.toNat < b.toNat then true
      else if b.toNat < a.toNat then false
      else strLtChars as bs

def strLe (s t : String) : Bool := strLeChars s.data t.data

def strLt (s t : String) : Bool := strLtChars s.data t.data

/-- The store of accepted definitions: the Python dict
_agent_definitions modelled as an association list in insertion order. -/
abbrev Defs := List (String × AgentDefinition)

/-- Python dict get on the definitions table. -/
def lookupDef : Defs → String → Option AgentDefinition
  | [], _ => none
  | (k, v) :: rest, name => if k = name then some v else lookupDef rest name

/-- Python dict assignment: replace the value at an existing key in
place, otherwise append a new entry at the end. -/
def setDef : Defs → String → AgentDefinition → Defs
  | [], name, d => [(name, d)]
  | (k, v) :: rest, name, d =>
      if k = name then (name, d) :: rest else (k, v) :: setDef rest name d

/-- The keys of the definitions table. -/
def keysOf (defs : Defs) : List String := defs.map Prod.fst

/-- How many entries the table holds under one name. -/
def countKey (defs : Defs) (name : String) : Nat := List.count name (keysOf defs)

/-- AgentRegistry.register_agent_definition (registry.py lines 345-373):
conflict resolution at promotion. If the name already has a Definition
with priority greater or equal, skip; otherwise construct the new
AgentDefinition (a construction failure is caught and leaves the table
unchanged) and assign it under the name. -/
def registerAgentDefinition (fsExists : String → Bool) (defs : Defs) (name : String)
    (factory : AgentFactory) (metadata : AgentMetadata)
    (modulePath : String) (sourceFile : String) : Defs :=
  let skip :=
    match lookupDef defs name with
    | some existing => decide (metadata.priority ≤ existing.metadata.priority)
    | none => false
  if skip then defs
  else
    match mkAgentDefinition fsExists name factory metadata modulePath sourceFile with
    | .ok d => setDef defs name d
    | .error _ => defs

/-- The sort key comparison in AgentRegistry.list_agents
(registry.py line 395): Python tuple order on (-priority, name). -/
def agentSortLe (a b : AgentDefinition) : Bool :=
  decide (b.metadata.priority < a.metadata.priority) ||
  (decide (a.metadata.priority = b.metadata.priority) && strLe a.name b.name)

/-- Stable insertion into a list sorted by agentSortLe: the inserted
element goes before the first element it compares less-or-equal to, so
elements with equal keys keep their relative order, as with the stable
Python list.sort. -/
def insertByKey (a : AgentDefinition) : List AgentDefinition → List AgentDefinition
  | [] => [a]
  | b :: rest => if agentSortLe a b then a :: b :: rest else b :: insertByKey a rest

/-- Stable sort by the (-priority, name) key, modelling the Python
list.sort call in list_agents (registry.py line 395). -/
def sortAgents (l : List AgentDefinition) : List AgentDefinition :=
  l.foldr insertByKey []

/-- AgentRegistry.list_agents (registry.py lines 379-396): the table
values in insertion order, optionally filtered, sorted by priority
descending then name ascending. -/
def listAgents (defs : Defs) (filterObj : Option AgentFilter) : List AgentDefinition :=
  let agents := defs.map Prod.snd
  let agents :=
    match filterObj with
    | some f => agents.filter (fun a => f.matches a)
    | none => agents
  sortAgents agents

/-- AgentRegistry.enable_agent (registry.py lines 398-413): flip
enabled to true in place; report whether the name was found. -/
def enableAgent (defs : Defs) (name : String) : Defs × Bool :=
  match lookupDef defs name with
  | some agentDef =>
      (setDef defs name
        { agentDef with metadata := { agentDef.metadata with enabled := true } }, true)
  | none => (defs, false)

/-- AgentRegistry.disable_agent (registry.py lines 415-430). -/
def disableAgent (defs : Defs) (name : String) : Defs × Bool :=
  match lookupDef defs name with
  | some agentDef =>
      (setDef defs name
        { agentDef with metadata := { agentDef.metadata with enabled := false } }, true)
  | none => (defs, false)

/-- One decorator-triggered registration: what register_agent passes to
AgentRegistry.register_decorated_function during a module import, with
the metadata the decorator attached to the wrapper. -/
structure DecoratedReg where
  name : String
  factory : AgentFactory
  metadata : AgentMetadata
  modulePath : String
deriving DecidableEq, Repr

/-- The mutable registry state (registry.py lines 58-62): accepted
definitions, collected decorated functions (the pending table),
discovery paths and the completion latch. -/
structure RegistryState where
  agentDefinitions : Defs
  decoratedFunctions : List DecoratedReg
  discoveryPaths : List String
  discoveryCompleted : Bool
deriving DecidableEq, Repr

/-- AgentRegistry.clear_registry (registry.py lines 432-440): empties
definitions and pending, resets the latch, keeps the discovery paths. -/
def clearRegistry (st : RegistryState) : RegistryState :=
  { st with agentDefinitions := [], decoratedFunctions := [], discoveryCompleted := false }

/-- AgentRegistry.register_decorated_function (registry.py lines
330-343): collect a decorated factory under its derived name; a
duplicate name during the same pass is a no-op. -/
def registerDecoratedFunction (st : RegistryState) (reg : DecoratedReg) : RegistryState :=
  if (st.decoratedFunctions.map DecoratedReg.name).contains reg.name then st
  else { st with decoratedFunctions := st.decoratedFunctions ++ [reg] }

/-- AgentRegistry.discover_decorator_pattern (registry.py lines
159-176): import every module found under the discovery paths, which
triggers decorator registrations (the list of registrations those
imports would perform is the parameter), then promote every collected
decorated function that has no Definition yet. The source file of a
decorator-promoted definition is the getattr fallback, unknown. -/
def discoverDecoratorPattern (fsExists : String → Bool)
    (imports : List DecoratedReg) (st : RegistryState) : RegistryState :=
  let st := imports.foldl registerDecoratedFunction st
  st.decoratedFunctions.foldl
    (fun s reg =>
      if (lookupDef s.agentDefinitions reg.name).isSome then s
      else
        { s with
            agentDefinitions :=
              registerAgentDefinition fsExists s.agentDefinitions reg.name
                reg.factory reg.metadata reg.modulePath "unknown" })
    st

/-- AgentRegistry.discover_agents (registry.py lines 118-157): no-op
when already completed and not forced; a forced run clears the store
first; otherwise run the one remaining pattern (DECORATOR) and set the
completion latch. -/
def discoverAgents (fsExists : String → Bool) (imports : List DecoratedReg)
    (st : RegistryState) (forceRefresh : Bool) : RegistryState :=
  if st.discoveryCompleted && !forceRefresh then st
  else
    let st := if forceRefresh then clearRegistry st else st
    let st := discoverDecoratorPattern fsExists imports st
    { st with discoveryCompleted := true }

/-- AgentRegistry.add_discovery_path (registry.py lines 90-100):
order-preserving, deduplicated. -/
def addDiscoveryPath (st : RegistryState) (path : String) : RegistryState :=
  if st.discoveryPaths.contains path then st
  else { st with discoveryPaths := st.discoveryPaths ++ [path] }

/-- The error the facade raises for a nonexistent discovery path
(manager.py line 57 raises ValueError; the specification taxonomy names
it PathNotFoundError). -/
inductive DiscoverError where
  | pathNotFound (path : String)
deriving DecidableEq, Repr

/-- The path-merging loop at the top of AgentManager.discover
(manager.py lines 53-58): reject the first path that does not exist on
the filesystem, otherwise add each to the store. -/
def mergePaths (fsExists : String → Bool) (st : RegistryState) :
    List String → Except DiscoverError RegistryState
  | [] => .ok st
  | p :: rest =>
      if !(fsExists p) then .error (.pathNotFound p)
      else mergePaths fsExists (addDiscoveryPath st p) rest

/-- AgentManager.discover (manager.py lines 35-67): merge the extra
paths (raising on a nonexistent one), delegate to the discovery engine,
return the resulting definition count with the new state. -/
def managerDiscover (fsExists : String → Bool) (imports : List DecoratedReg)
    (st : RegistryState) (paths : Option (List String)) (forceRefresh : Bool) :
    Except DiscoverError (Nat × RegistryState) :=
  let merged :=
    match paths with
    | none => Except.ok st
    | some ps => mergePaths fsExists st ps
  match merged with
  | .error e => .error e
  | .ok st =>
      let st := discoverAgents fsExists imports st forceRefresh
      .ok ((listAgents st.agentDefinitions none).length, st)

/-- AgentManager.create_agent (manager.py lines 226-258): by-name
instantiation. The second component counts factory invocations along
the taken control path: a falsy name, a missing definition and a
disabled definition all return none without calling the factory; an
enabled one calls it once, wrapping a factory error with the agent
name. -/
def createAgent (defs : Defs) (name : String) : Except String (Option Agent) × Nat :=
  if name = "" then (.ok none, 0)
  else
    match lookupDef defs name with
    | none => (.ok none, 0)
    | some agentDef =>
        if agentDef.metadata.enabled = false then (.ok none, 0)
        else
          match agentDef.factoryFunction with
          | .ok a => (.ok (some a), 1)
          | .error e => (.error ("Failed to create agent " ++ name ++ ": " ++ e), 1)

/-- The loop body of AgentManager.create_enabled_agents (manager.py
lines 275-282): call every factory, collecting created agents and
(name, error) failures in encounter order. -/
def collectAgents : List AgentDefinition → List Agent × List (String × String)
  | [] => ([], [])
  | d :: rest =>
      let r := collectAgents rest
      match d.factoryFunction with
      | .ok a => (a :: r.1, r.2)
      | .error e => (r.1, (d.name, e) :: r.2)

/-- Python str.join with a comma-space separator. -/
def joinComma : List String → String
  | [] => ""
  | [s] => s
  | s :: rest => s ++ ", " ++ joinComma rest

/-- The aggregated message of the RuntimeError that
create_enabled_agents raises (manager.py lines 284-288). -/
def failureMessage (failed : List (String × String)) : String :=
  "Failed to create " ++ toString failed.length ++ " agents: " ++
    joinComma (failed.map (fun p => p.1 ++ ": " ++ p.2))

/-- AgentManager.create_enabled_agents (manager.py lines 260-291):
attempt every enabled definition in list order; if any failed, raise
one RuntimeError whose message aggregates every failure; otherwise
return the created agents. -/
def createEnabledAgents (defs : Defs) : Except String (List Agent) :=
  let enabledAgents := listAgents defs (some { enabled := some true })
  let r := collectAgents enabledAgents
  if r.2.isEmpty then .ok r.1
  else .error (failureMessage r.2)

/-- Python str.startswith, on code points. -/
def strStartsWith (s p : String) : Bool := p.data.isPrefixOf s.data

/-- AgentRegistry.scan_path_for_modules (registry.py lines 257-262):
given the .py file names directly inside a discovery path, the files
whose import is attempted — every file whose name does not start with
the double-underscore marker. -/
def scanPathForModules (pyFiles : List String) : List String :=
  pyFiles.filter (fun f => !(strStartsWith f "__"))

/-- Modelled from the spec: the fixed exclusion set of filenames
belonging to the discovery engine implementation that section 4.4
claims are never imported; no such set exists in
AgentRegistry.scan_path_for_modules, so this definition follows the
spec words (the engine implementation files of this repository) for
refinement comparison only. -/
def specEngineImplFiles : List String :=
  ["base.py", "registry.py", "manager.py", "decorators.py", "builder.py", "factory.py"]

/-- Modelled from the spec: section 4.4 eligibility — not privately
marked AND not an engine implementation file. -/
def specShouldImport (fileName : String) : Bool :=
  !(strStartsWith fileName "__") && !(specEngineImplFiles.contains fileName)

/-- The (name, error description) a definition contributes to the
failure list of create_enabled_agents, if its factory raises. -/
def failOf (d : AgentDefinition) : Option (String × String) :=
  match d.factoryFunction with
  | .ok _ => none
  | .error e => some (d.name, e)

/-- The object a definition contributes to the success list of
create_enabled_agents, if its factory returns. -/
def okOf (d : AgentDefinition) : Option Agent :=
  match d.factoryFunction with
  | .ok a => some a
  | .error _ => none

/-- The strict (priority descending, name ascending) order on
definitions, used to state determinism of the list_agents ordering. -/
def agentStrictOrder (a b : AgentDefinition) : Prop :=
  b.metadata.priority < a.metadata.priority ∨
  (a.metadata.priority = b.metadata.priority ∧ strLt a.name b.name = true)

/-! Concrete data for witness instantiations. -/

def fsAll : String → Bool := fun _ => true

def fsNone : String → Bool := fun _ => false

def demoMetaLow : AgentMetadata := { name := "Docs", pattern := .DECORATOR, priority := 10 }

def demoMetaHigh : AgentMetadata := { name := "Docs", pattern := .DECORATOR, priority := 20 }

def demoDefLow : AgentDefinition :=
  { name := "Docs", factoryFunction := .ok ⟨1⟩, metadata := demoMetaLow,
    modulePath := "m", sourceFile := "unknown" }

def demoDefsLow : Defs := [("Docs", demoDefLow)]

def demoGoodDef : AgentDefinition :=
  { name := "Good", factoryFunction := .ok ⟨1⟩,
    metadata := { name := "Good", pattern := .DECORATOR, priority := 50 },
    modulePath := "m", sourceFile := "unknown" }

def demoBadDef : AgentDefinition :=
  { name := "Bad", factoryFunction := .error "boom",
    metadata := { name := "Bad", pattern := .DECORATOR, priority := 50 },
    modulePath := "m", sourceFile := "unknown" }

def demoMixedDefs : Defs := [("Good", demoGoodDef), ("Bad", demoBadDef)]

def demoDisabledDef : AgentDefinition :=
  { name := "Off", factoryFunction := .ok ⟨7⟩,
    metadata := { name := "Off", pattern := .DECORATOR, priority := 50, enabled := false },
    modulePath := "m", sourceFile := "unknown" }

def demoDisabledDefs : Defs := [("Off", demoDisabledDef)]

def demoStateDone : RegistryState :=
  { agentDefinitions := demoMixedDefs, decoratedFunctions := [],
    discoveryPaths := ["p"], discoveryCompleted := true }

def demoDefHigh : AgentDefinition :=
  { name := "Docs", factoryFunction := .ok ⟨2⟩, metadata := demoMetaHigh,
    modulePath := "m2", sourceFile := "unknown" }

def demoReg : DecoratedReg :=
  { name := "New", factory := .ok ⟨9⟩,
    metadata := { name := "New", pattern := .DECORATOR }, modulePath := "m" }

def demoFilterEmptyTags : AgentFilter := { tags := some [], enabled := some true }

/-! Helper lemmas about the code-point order. -/

theorem strLeChars_total (as bs : List Char) :
    strLeChars as bs = true ∨ strLeChars bs as = true := by
  induction as generalizing bs with
  | nil => left; simp [strLeChars]
  | cons a as ih =>
    cases bs with
    | nil => right; simp [strLeChars]
    | cons b bs =>
      by_cases h1 : a.toNat < b.toNat
      · left; simp [strLeChars, h1]
      · by_cases h2 : b.toNat < a.toNat
        · right; simp [strLeChars, h2]
        · rcases ih bs with h | h
          · left; simp [strLeChars, h1, h2, h]
          · right; simp [strLeChars, h1, h2, h]

theorem strLeChars_trans (as bs cs : List Char) (h1 : strLeChars as bs = true)
    (h2 : strLeChars bs cs = true) : strLeChars as cs = true := by
  induction as generalizing bs cs with
  | nil => simp [strLeChars]
  | cons a as ih =>
    cases bs with
    | nil => simp [strLeChars] at h1
    | cons b bs =>
      cases cs with
      | nil => simp [strLeChars] at h2
      | cons c cs =>
        simp only [strLeChars] at h1 h2 ⊢
        by_cases hab : a.toNat < b.toNat
        · by_cases hbc : b.toNat < c.toNat
          · have : a.toNat < c.toNat := by omega
            simp [this]
          · by_cases hcb : c.toNat < b.toNat
            · simp [hbc, hcb] at h2
            · have : a.toNat < c.toNat := by omega
              simp [this]
        · by_cases hba : b.toNat < a.toNat
          · simp [hab, hba] at h1
          · by_cases hbc : b.toNat < c.toNat
            · have : a.toNat < c.toNat := by omega
              simp [this]
            · by_cases hcb : c.toNat < b.toNat
              · simp [hbc, hcb] at h2
              · have hac : ¬ a.toNat < c.toNat := by omega
                have hca : ¬ c.toNat < a.toNat := by omega
                simp only [hab, hba, if_false, if_neg hab, if_neg hba] at h1
                simp only [if_neg hbc, if_neg hcb] at h2
                simp [hac, hca, ih bs cs h1 h2]

theorem strLeChars_antisymm (as bs : List Char) (h1 : strLeChars as bs = true)
    (h2 : strLeChars bs as = true) : as = bs := by
  induction as generalizing bs with
  | nil =>
    cases bs with
    | nil => rfl
    | cons b bs => simp [strLeChars] at h2
  | cons a as ih =>
    cases bs with
    | nil => simp [strLeChars] at h1
    | cons b bs =>
      simp only [strLeChars] at h1 h2
      by_cases hab : a.toNat < b.toNat
      · have hnb : ¬ b.toNat < a.toNat := by omega
        simp [hnb, hab] at h2
      · by_cases hba : b.toNat < a.toNat
        · simp [hab, hba] at h1
        · have hn : a.toNat = b.toNat := by omega
          have hchar : a = b := Char.ext (UInt32.ext hn)
          simp only [if_neg hab, if_neg hba] at h1 h2
          rw [hchar, ih bs h1 h2]

theorem strLeChars_ne_lt (as bs : List Char) (h : strLeChars as bs = true)
    (hne : as ≠ bs) : strLtChars as bs = true := by
  induction as generalizing bs with
  | nil =>
    cases bs with
    | nil => exact absurd rfl hne
    | cons b bs => simp [strLtChars]
  | cons a as ih =>
    cases bs with
    | nil => simp [strLeChars] at h
    | cons b bs =>
      simp only [strLeChars] at h
      simp only [strLtChars]
      by_cases hab : a.toNat < b.toNat
      · simp [hab]
      · by_cases hba : b.toNat < a.toNat
        · simp [hab, hba] at h
        · have hn : a.toNat = b.toNat := by omega
          have hchar : a = b := Char.ext (UInt32.ext hn)
          have hne2 : as ≠ bs := by
            intro hc
            exact hne (by rw [hchar, hc])
          simp only [if_neg hab, if_neg hba] at h ⊢
          exact ih bs h hne2

/-! Helper lemmas about the sort key and the stable sort. -/

theorem agentSortLe_total (a b : AgentDefinition) :
    agentSortLe a b = true ∨ agentSortLe b a = true := by
  simp only [agentSortLe, Bool.or_eq_true, Bool.and_eq_true, decide_eq_true_eq]
  rcases lt_trichotomy a.metadata.priority b.metadata.priority with h | h | h
  · right; left; exact h
  · rcases strLeChars_total a.name.data b.name.data with hs | hs
    · left; right; exact ⟨h, hs⟩
    · right; right; exact ⟨h.symm, hs⟩
  · left; left; exact h

theorem agentSortLe_trans (a b c : AgentDefinition) (h1 : agentSortLe a b = true)
    (h2 : agentSortLe b c = true) : agentSortLe a c = true := by
  simp only [agentSortLe, Bool.or_eq_true, Bool.and_eq_true, decide_eq_true_eq] at h1 h2 ⊢
  rcases h1 with h1 | ⟨h1p, h1n⟩
  · rcases h2 with h2 | ⟨h2p, h2n⟩
    · left; omega
    · left; omega
  · rcases h2 with h2 | ⟨h2p, h2n⟩
    · left; omega
    · right
      exact ⟨by omega, strLeChars_trans _ _ _ h1n h2n⟩

theorem insertByKey_perm (a : AgentDefinition) (l : List AgentDefinition) :
    (insertByKey a l).Perm (a :: l) := by
  induction l with
  | nil => simp [insertByKey]
  | cons b rest ih =>
    simp only [insertByKey]
    by_cases h : agentSortLe a b = true
    · simp [h]
    · simp only [h, if_false]
      exact (List.Perm.cons b ih).trans (List.Perm.swap a b rest)

theorem sortAgents_perm (l : List AgentDefinition) : (sortAgents l).Perm l := by
  induction l with
  | nil => simp [sortAgents]
  | cons a rest ih =>
    have : sortAgents (a :: rest) = insertByKey a (sortAgents rest) := rfl
    rw [this]
    exact (insertByKey_perm a (sortAgents rest)).trans (List.Perm.cons a ih)

theorem mem_insertByKey (x a : AgentDefinition) (l : List AgentDefinition)
    (h : x ∈ insertByKey a l) : x = a ∨ x ∈ l := by
  have := (insertByKey_perm a l).mem_iff.mp h
  simpa using this

theorem insertByKey_sorted (a : AgentDefinition) (l : List AgentDefinition)
    (h : List.Pairwise (fun x y => agentSortLe x y = true) l) :
    List.Pairwise (fun x y => agentSortLe x y = true) (insertByKey a l) := by
  induction l with
  | nil => simp [insertByKey]
  | cons b rest ih =>
    rcases List.pairwise_cons.mp h with ⟨hb, hrest⟩
    simp only [insertByKey]
    by_cases hab : agentSortLe a b = true
    · rw [if_pos hab]
      refine List.pairwise_cons.mpr ⟨?_, h⟩
      intro y hy
      rcases List.mem_cons.mp hy with rfl | hy
      · exact hab
      · exact agentSortLe_trans a b y hab (hb y hy)
    · have hba : agentSortLe b a = true := by
        rcases agentSortLe_total a b with ht | ht
        · exact absurd ht hab
        · exact ht
      simp only [hab, if_false]
      refine List.pairwise_cons.mpr ⟨?_, ih hrest⟩
      intro y hy
      rcases mem_insertByKey y a rest hy with rfl | hy
      · exact hba
      · exact hb y hy

theorem sortAgents_sorted (l : List AgentDefinition) :
    List.Pairwise (fun x y => agentSortLe x y = true) (sortAgents l) := by
  induction l with
  | nil => simp [sortAgents]
  | cons a rest ih =>
    have : sortAgents (a :: rest) = insertByKey a (sortAgents rest) := rfl
    rw [this]
    exact insertByKey_sorted a (sortAgents rest) ih

theorem agentSortLe_strict (a b : AgentDefinition) (h : agentSortLe a b = true)
    (hne : a.name ≠ b.name) : agentStrictOrder a b := by
  simp only [agentSortLe, Bool.or_eq_true, Bool.and_eq_true, decide_eq_true_eq] at h
  rcases h with h | ⟨hp, hn⟩
  · exact Or.inl h
  · refine Or.inr ⟨hp, ?_⟩
    have hd : a.name.data ≠ b.name.data := fun hc => hne (String.ext hc)
    exact strLeChars_ne_lt _ _ hn hd

/-! Helper lemmas about the definitions table. -/

theorem lookupDef_mem_keys (defs : Defs) (n : String) (d : AgentDefinition)
    (h : lookupDef defs n = some d) : n ∈ keysOf defs := by
  induction defs with
  | nil => simp [lookupDef] at h
  | cons kv rest ih =>
    by_cases hk : kv.1 = n
    · simp [keysOf, hk]
    · simp only [lookupDef] at h
      rw [if_neg hk] at h
      simp [keysOf] at ih ⊢
      right
      exact ih h

theorem lookupDef_setDef_self (defs : Defs) (n : String) (d : AgentDefinition) :
    lookupDef (setDef defs n d) n = some d := by
  induction defs with
  | nil => simp [setDef, lookupDef]
  | cons kv rest ih =>
    simp only [setDef]
    by_cases hk : kv.1 = n
    · rw [if_pos hk]
      simp [lookupDef]
    · rw [if_neg hk]
      simp only [lookupDef]
      rw [if_neg hk]
      exact ih

theorem keysOf_setDef_of_mem (defs : Defs) (n : String) (d : AgentDefinition)
    (h : n ∈ keysOf defs) : keysOf (setDef defs n d) = keysOf defs := by
  induction defs with
  | nil => simp [keysOf] at h
  | cons kv rest ih =>
    simp only [setDef]
    by_cases hk : kv.1 = n
    · rw [if_pos hk]
      simp [keysOf, hk]
    · rw [if_neg hk]
      have hmem : n ∈ keysOf rest := by
        simp only [keysOf, List.map_cons, List.mem_cons] at h
        rcases h with h | h
        · exact absurd h.symm hk
        · exact h
      simp only [keysOf, List.map_cons]
      rw [show List.map Prod.fst (setDef rest n d) = List.map Prod.fst rest from ih hmem]

/-! Helper lemmas about bulk instantiation. -/

theorem collectAgents_eq (l : List AgentDefinition) :
    collectAgents l = (l.filterMap okOf, l.filterMap failOf) := by
  induction l with
  | nil => simp [collectAgents]
  | cons d rest ih =>
    simp only [collectAgents, ih, List.filterMap_cons]
    cases hf : d.factoryFunction with
    | ok a => simp [okOf, failOf, hf]
    | error e => simp [okOf, failOf, hf]

theorem isInfix_append_left {α : Type} (pre l j : List α) (h : l <:+: j) :
    l <:+: pre ++ j := by
  obtain ⟨u, t, hut⟩ := h
  exact ⟨pre ++ u, t, by rw [← hut]; simp [List.append_assoc]⟩

theorem mem_joinComma_infix (s : String) (l : List String) (h : s ∈ l) :
    s.data <:+: (joinComma l).data := by
  induction l with
  | nil => simp at h
  | cons x rest ih =>
    cases rest with
    | nil =>
      have : s = x := by simpa using h
      rw [this]
      exact List.infix_refl _
    | cons y rest2 =>
      have hj : joinComma (x :: y :: rest2) = x ++ ", " ++ joinComma (y :: rest2) := rfl
      rw [hj, String.data_append, String.data_append]
      rcases List.mem_cons.mp h with rfl | hmem
      · exact ⟨[], ", ".data ++ (joinComma (y :: rest2)).data, by simp [List.append_assoc]⟩
      · have := ih hmem
        rw [List.append_assoc]
        exact isInfix_append_left _ _ _ (isInfix_append_left _ _ _ this)

/-! Claim theorems. -/

/-- Claim C9: constructing a Metadata instance with an empty name or a
negative priority always fails with a validation error and exposes no
partial object; a non-empty name with a non-negative integer priority
and string-list tags and dependencies always succeeds. -/
theorem metadata_validation (name : String) (pattern : DiscoveryPattern)
    (tags : List String) (priority : Int) (enabled : Bool)
    (dependencies : List String) (customAttributes : List (String × String)) :
    ((name = "" ∨ priority < 0) →
      ∃ e, mkAgentMetadata name pattern tags priority enabled dependencies
            customAttributes = .error e) ∧
    (name ≠ "" → 0 ≤ priority →
      mkAgentMetadata name pattern tags priority enabled dependencies customAttributes =
        .ok { name, pattern, tags, priority, enabled, dependencies, customAttributes }) := by
  constructor
  · intro h
    by_cases hn : name = ""
    · exact ⟨"Agent name must be a non-empty string", by simp [mkAgentMetadata, hn]⟩
    · have hp : priority < 0 := by
        rcases h with h | h
        · exact absurd h hn
        · exact h
      exact ⟨"Priority must be a positive integer", by simp [mkAgentMetadata, hn, hp]⟩
  · intro hn hp
    have hp2 : ¬ priority < 0 := not_lt.mpr hp
    simp [mkAgentMetadata, hn, hp2]

/-- Claim C9 witness: the empty name and a negative priority each fail;
a valid input constructs exactly the expected instance. -/
theorem metadata_validation_witness :
    (∃ e, mkAgentMetadata "" .DECORATOR [] 50 true [] [] = .error e) ∧
    (∃ e, mkAgentMetadata "Docs" .DECORATOR [] (-1) true [] [] = .error e) ∧
    mkAgentMetadata "Docs" .DECORATOR ["d"] 50 true ["x"] [] =
      .ok { name := "Docs", pattern := .DECORATOR, tags := ["d"], priority := 50,
            enabled := true, dependencies := ["x"], customAttributes := [] } :=
  ⟨(metadata_validation "" .DECORATOR [] 50 true [] []).1 (Or.inl rfl),
   (metadata_validation "Docs" .DECORATOR [] (-1) true [] []).1 (Or.inr (by decide)),
   (metadata_validation "Docs" .DECORATOR ["d"] 50 true ["x"] []).2 (by decide) (by decide)⟩

/-- Claim C10: a filter whose tag criterion is the empty list matches
exactly as the same filter with the tag criterion absent — the empty
tag list is ignored, not unsatisfiable. -/
theorem filter_empty_tags_ignored (f : AgentFilter) (d : AgentDefinition)
    (h : f.tags = some []) :
    f.matches d = AgentFilter.matches { f with tags := none } d := by
  simp [AgentFilter.matches, h]

/-- Claim C10 witness: a definition sharing no tag with the filter
still matches under an empty tag list, exactly as with no tag
criterion. -/
theorem filter_empty_tags_ignored_witness :
    demoFilterEmptyTags.matches demoGoodDef =
      AgentFilter.matches { demoFilterEmptyTags with tags := none } demoGoodDef ∧
    demoFilterEmptyTags.matches demoGoodDef = true :=
  ⟨filter_empty_tags_ignored demoFilterEmptyTags demoGoodDef rfl, by decide⟩

/-- Claim C4: requesting a disabled definition by name returns absent
and performs zero factory invocations. -/
theorem disabled_agent_never_instantiated (defs : Defs) (name : String)
    (d : AgentDefinition) (hlook : lookupDef defs name = some d)
    (hdis : d.metadata.enabled = false) :
    createAgent defs name = (.ok none, 0) := by
  by_cases hn : name = ""
  · simp [createAgent, hn]
  · simp [createAgent, hn, hlook, hdis]

/-- Claim C4 witness: the disabled demo definition is not instantiated
and its factory call count is zero. -/
theorem disabled_agent_never_instantiated_witness :
    createAgent demoDisabledDefs "Off" = (.ok none, 0) :=
  disabled_agent_never_instantiated demoDisabledDefs "Off" demoDisabledDef
    (by decide) (by decide)

/-- Claim C6: when discovery has already completed, a non-forced
discovery run leaves the whole registry state unchanged. -/
theorem discovery_idempotent_without_force (fsExists : String → Bool)
    (imports : List DecoratedReg) (st : RegistryState)
    (h : st.discoveryCompleted = true) :
    discoverAgents fsExists imports st false = st := by
  simp [discoverAgents, h]

/-- Claim C6 witness: a completed state is untouched even when the
pass would register a new decorated factory. -/
theorem discovery_idempotent_without_force_witness :
    discoverAgents fsAll [demoReg] demoStateDone false = demoStateDone :=
  discovery_idempotent_without_force fsAll [demoReg] demoStateDone rfl

/-- Claim C8 counterexample: the scan of a discovery path imports a
file named registry.py — one of the discovery engine implementation
files the specification says a fixed exclusion set keeps out. -/
theorem scan_imports_engine_file :
    scanPathForModules ["registry.py"] = ["registry.py"] ∧
    specShouldImport "registry.py" = false := by
  exact ⟨by decide, by decide⟩

/-- Claim C8 (amended): a file directly inside a discovery path is
imported iff its name does not begin with the double-underscore private
marker; there is no further exclusion set, so the engine can import its
own implementation files. -/
theorem scan_path_eligibility (pyFiles : List String) (f : String) :
    f ∈ scanPathForModules pyFiles ↔ f ∈ pyFiles ∧ strStartsWith f "__" = false := by
  simp [scanPathForModules, List.mem_filter]

/-- Claim C8 witness: a private module is excluded while a plain module
and an engine implementation file are both imported. -/
theorem scan_path_eligibility_witness :
    "registry.py" ∈ scanPathForModules ["registry.py", "__init__.py", "docs_agent.py"] ∧
    ¬ "__init__.py" ∈ scanPathForModules ["registry.py", "__init__.py", "docs_agent.py"] := by
  constructor
  · exact (scan_path_eligibility ["registry.py", "__init__.py", "docs_agent.py"]
      "registry.py").mpr ⟨by decide, by decide⟩
  · intro h
    have := ((scan_path_eligibility ["registry.py", "__init__.py", "docs_agent.py"]
      "__init__.py").mp h).2
    simp [strStartsWith] at this

/-- Claim C1: promoting a valid registration under a name that already
holds a Definition replaces it exactly when the new priority is
strictly greater; an equal-or-lower priority leaves the existing
Definition and rejects the new one without raising; either way the
table holds exactly one Definition under the name afterwards. -/
theorem promote_conflict_resolution (fsExists : String → Bool) (defs : Defs)
    (name : String) (factory : AgentFactory) (metadata : AgentMetadata)
    (modulePath : String) (sourceFile : String) (existing newDef : AgentDefinition)
    (hnodup : (keysOf defs).Nodup)
    (hex : lookupDef defs name = some existing)
    (hok : mkAgentDefinition fsExists name factory metadata modulePath sourceFile =
      .ok newDef) :
    (existing.metadata.priority < metadata.priority →
      lookupDef (registerAgentDefinition fsExists defs name factory metadata
        modulePath sourceFile) name = some newDef) ∧
    (metadata.priority ≤ existing.metadata.priority →
      registerAgentDefinition fsExists defs name factory metadata modulePath
        sourceFile = defs) ∧
    countKey (registerAgentDefinition fsExists defs name factory metadata modulePath
      sourceFile) name = 1 := by
  have hmem := lookupDef_mem_keys defs name existing hex
  have hcount : countKey defs name = 1 := List.count_eq_one_of_mem hnodup hmem
  by_cases hle : metadata.priority ≤ existing.metadata.priority
  · have hreg : registerAgentDefinition fsExists defs name factory metadata
        modulePath sourceFile = defs := by
      simp [registerAgentDefinition, hex, hle]
    refine ⟨fun hlt => absurd hle (not_le.mpr hlt), fun _ => hreg, ?_⟩
    rw [hreg]
    exact hcount
  · have hreg : registerAgentDefinition fsExists defs name factory metadata
        modulePath sourceFile = setDef defs name newDef := by
      simp [registerAgentDefinition, hex, hle, hok]
    refine ⟨fun _ => ?_, fun hc => absurd hc hle, ?_⟩
    · rw [hreg]
      exact lookupDef_setDef_self defs name newDef
    · rw [hreg]
      unfold countKey
      rw [show keysOf (setDef defs name newDef) = keysOf defs from
        keysOf_setDef_of_mem defs name newDef hmem]
      exact hcount

/-- Claim C1 witness: a strictly higher-priority registration replaces
the stored demo Definition and leaves exactly one entry; the same data
at lower priority leaves the store untouched. -/
theorem promote_conflict_resolution_witness :
    lookupDef (registerAgentDefinition fsAll demoDefsLow "Docs" (.ok ⟨2⟩) demoMetaHigh
      "m2" "unknown") "Docs" = some demoDefHigh ∧
    countKey (registerAgentDefinition fsAll demoDefsLow "Docs" (.ok ⟨2⟩) demoMetaHigh
      "m2" "unknown") "Docs" = 1 := by
  have h := promote_conflict_resolution fsAll demoDefsLow "Docs" (.ok ⟨2⟩) demoMetaHigh
    "m2" "unknown" demoDefLow demoDefHigh (by decide) (by decide) (by decide)
  exact ⟨h.1 (by decide), h.2.2⟩

/-- A sort of definitions with pairwise distinct names is strictly
ordered by (priority descending, name ascending). -/
theorem sortAgents_pairwise_strict (l : List AgentDefinition)
    (h : (l.map AgentDefinition.name).Nodup) :
    List.Pairwise agentStrictOrder (sortAgents l) := by
  have hsorted := sortAgents_sorted l
  have hperm := sortAgents_perm l
  have hnodup : ((sortAgents l).map AgentDefinition.name).Nodup :=
    ((hperm.map AgentDefinition.name).nodup_iff).mpr h
  have hne : List.Pairwise (fun a b : AgentDefinition => a.name ≠ b.name)
      (sortAgents l) := List.pairwise_map.mp hnodup
  exact (hsorted.and hne).imp (fun hab => agentSortLe_strict _ _ hab.1 hab.2)

/-- Claim C5: list_agents returns exactly the stored definitions that
match the filter, and the result is strictly ordered by priority
descending then name ascending — a deterministic total order on any
store whose definitions carry pairwise distinct names. -/
theorem list_agents_ordered (defs : Defs) (filterObj : Option AgentFilter)
    (hnames : ((defs.map Prod.snd).map AgentDefinition.name).Nodup) :
    (∀ d, d ∈ listAgents defs filterObj ↔
       d ∈ defs.map Prod.snd ∧
         Option.all (fun f => f.matches d) filterObj = true) ∧
    List.Pairwise agentStrictOrder (listAgents defs filterObj) := by
  cases filterObj with
  | none =>
    refine ⟨fun d => ?_, sortAgents_pairwise_strict _ hnames⟩
    have hperm := sortAgents_perm (defs.map Prod.snd)
    simpa [listAgents, Option.all] using hperm.mem_iff
  | some f =>
    refine ⟨fun d => ?_, ?_⟩
    · have hperm := sortAgents_perm ((defs.map Prod.snd).filter (fun a => f.matches a))
      constructor
      · intro hd
        have hmem := hperm.mem_iff.mp hd
        rcases List.mem_filter.mp hmem with ⟨h1, h2⟩
        exact ⟨h1, by simpa [Option.all] using h2⟩
      · rintro ⟨h1, h2⟩
        exact hperm.mem_iff.mpr
          (List.mem_filter.mpr ⟨h1, by simpa [Option.all] using h2⟩)
    · have hsub : (((defs.map Prod.snd).filter (fun a => f.matches a)).map
          AgentDefinition.name).Nodup :=
        List.Nodup.sublist ((List.filter_sublist _).map AgentDefinition.name) hnames
      exact sortAgents_pairwise_strict _ hsub

/-- Claim C5 witness: on the two-entry demo store the enabled-filtered
listing is strictly ordered, and a stored matching definition is
listed. -/
theorem list_agents_ordered_witness :
    List.Pairwise agentStrictOrder
      (listAgents demoMixedDefs (some { enabled := some true })) ∧
    demoBadDef ∈ listAgents demoMixedDefs (some { enabled := some true }) := by
  have h := list_agents_ordered demoMixedDefs (some { enabled := some true }) (by decide)
  exact ⟨h.2, (h.1 demoBadDef).mpr ⟨by decide, by decide⟩⟩

/-- The path-merging loop raises on the first nonexistent path. -/
theorem mergePaths_error (fsExists : String → Bool) (paths : List String) :
    ∀ st : RegistryState, (∃ p ∈ paths, fsExists p = false) →
    ∃ p, p ∈ paths ∧ fsExists p = false ∧
      mergePaths fsExists st paths = .error (.pathNotFound p) := by
  induction paths with
  | nil =>
    intro st h
    simp at h
  | cons q rest ih =>
    intro st h
    by_cases hq : fsExists q = false
    · exact ⟨q, by simp, hq, by simp [mergePaths, hq]⟩
    · have hq2 : fsExists q = true := by
        cases hfs : fsExists q
        · exact absurd hfs hq
        · rfl
      rcases h with ⟨p, hp, hpe⟩
      rcases List.mem_cons.mp hp with rfl | hp2
      · exact absurd hpe hq
      · rcases ih (addDiscoveryPath st q) ⟨p, hp2, hpe⟩ with ⟨r, hr1, hr2, hr3⟩
        exact ⟨r, List.mem_cons_of_mem q hr1, hr2, by simp [mergePaths, hq2, hr3]⟩

/-- Claim C7: a facade discover call whose paths argument contains a
path that does not exist on the filesystem raises PathNotFoundError to
the caller — the call returns that error and discovery yields no
count or updated state. -/
theorem discover_rejects_missing_path (fsExists : String → Bool)
    (imports : List DecoratedReg) (st : RegistryState) (paths : List String)
    (forceRefresh : Bool) (h : ∃ p ∈ paths, fsExists p = false) :
    ∃ p, p ∈ paths ∧ fsExists p = false ∧
      managerDiscover fsExists imports st (some paths) forceRefresh =
        .error (.pathNotFound p) := by
  rcases mergePaths_error fsExists paths st h with ⟨p, hp1, hp2, hp3⟩
  exact ⟨p, hp1, hp2, by simp [managerDiscover, hp3]⟩

/-- Claim C7 witness: with a filesystem on which no path exists, a
discover call naming one path fails with PathNotFoundError for it. -/
theorem discover_rejects_missing_path_witness :
    managerDiscover fsNone [] demoStateDone (some ["missing"]) false =
      .error (.pathNotFound "missing") := by
  rcases discover_rejects_missing_path fsNone [] demoStateDone ["missing"] false
      ⟨"missing", by simp, rfl⟩ with ⟨p, hp1, _, hp3⟩
  have hpm : p = "missing" := by simpa using hp1
  rw [hpm] at hp3
  exact hp3

/-- create_enabled_agents, characterized over the whole enabled list:
successes and failures are each a filterMap over every enabled
definition, and the batch raises exactly when some failure occurred. -/
theorem createEnabledAgents_eq (defs : Defs) :
    createEnabledAgents defs =
      if ((listAgents defs (some { enabled := some true })).filterMap failOf).isEmpty
      then .ok ((listAgents defs (some { enabled := some true })).filterMap okOf)
      else .error (failureMessage
        ((listAgents defs (some { enabled := some true })).filterMap failOf)) := by
  simp [createEnabledAgents, collectAgents_eq]

/-- When some enabled factory fails, the batch raises the aggregated
message built from the complete failure list. -/
theorem createEnabledAgents_error_of_ne (defs : Defs)
    (hfail : (listAgents defs (some { enabled := some true })).filterMap failOf ≠ []) :
    createEnabledAgents defs = .error (failureMessage
      ((listAgents defs (some { enabled := some true })).filterMap failOf)) := by
  rw [createEnabledAgents_eq]
  cases hF : (listAgents defs (some { enabled := some true })).filterMap failOf with
  | nil => exact absurd hF hfail
  | cons p rest => simp

/-- Claim C2: when at least one enabled factory raises, the batch still
attempts every enabled item — the failure list is the filterMap of the
whole enabled list, not a prefix — and raises one error whose message
names every failed item with its error description. -/
theorem bulk_instantiation_aggregates_failures (defs : Defs)
    (hfail : ∃ d ∈ listAgents defs (some { enabled := some true }),
      ∃ e, d.factoryFunction = .error e) :
    (listAgents defs (some { enabled := some true })).filterMap failOf ≠ [] ∧
    createEnabledAgents defs = .error (failureMessage
      ((listAgents defs (some { enabled := some true })).filterMap failOf)) ∧
    ∀ d ∈ listAgents defs (some { enabled := some true }), ∀ e,
      d.factoryFunction = .error e →
        (d.name ++ ": " ++ e).data <:+:
          (failureMessage
            ((listAgents defs (some { enabled := some true })).filterMap failOf)).data := by
  obtain ⟨d0, hd0, e0, he0⟩ := hfail
  have hne : (listAgents defs (some { enabled := some true })).filterMap failOf ≠ [] := by
    intro hc
    have hmem : (d0.name, e0) ∈
        (listAgents defs (some { enabled := some true })).filterMap failOf :=
      List.mem_filterMap.mpr ⟨d0, hd0, by simp [failOf, he0]⟩
    rw [hc] at hmem
    simp at hmem
  refine ⟨hne, createEnabledAgents_error_of_ne defs hne, ?_⟩
  intro d hd e he
  have hmemF : (d.name, e) ∈
      (listAgents defs (some { enabled := some true })).filterMap failOf :=
    List.mem_filterMap.mpr ⟨d, hd, by simp [failOf, he]⟩
  have hmemS : (d.name ++ ": " ++ e) ∈
      ((listAgents defs (some { enabled := some true })).filterMap failOf).map
        (fun p => p.1 ++ ": " ++ p.2) :=
    List.mem_map.mpr ⟨(d.name, e), hmemF, rfl⟩
  have hinf := mem_joinComma_infix _ _ hmemS
  unfold failureMessage
  rw [String.data_append]
  exact isInfix_append_left _ _ _ hinf

/-- Claim C2 witness: in the two-entry demo store the one failing
factory produces the aggregated error whose message names the failed
item and its error description. -/
theorem bulk_instantiation_aggregates_failures_witness :
    createEnabledAgents demoMixedDefs = .error (failureMessage [("Bad", "boom")]) ∧
    ("Bad" ++ ": " ++ "boom").data <:+: (failureMessage [("Bad", "boom")]).data := by
  have h := bulk_instantiation_aggregates_failures demoMixedDefs
    ⟨demoBadDef, by decide, "boom", rfl⟩
  have hF : (listAgents demoMixedDefs (some { enabled := some true })).filterMap failOf =
      [("Bad", "boom")] := by decide
  constructor
  · rw [← hF]
    exact h.2.1
  · have hinf := h.2.2 demoBadDef (by decide) "boom" rfl
    rw [hF] at hinf
    exact hinf

/-- Claim C3 counterexample: in the demo store one factory succeeds and
one fails; the call raises an error carrying only the aggregated
message, so the caller does not receive the successfully constructed
object — contrary to the claim that successes are delivered alongside
the consolidated error. -/
theorem bulk_failure_discards_successes :
    demoGoodDef.factoryFunction = .ok ⟨1⟩ ∧
    demoGoodDef ∈ listAgents demoMixedDefs (some { enabled := some true }) ∧
    createEnabledAgents demoMixedDefs =
      .error "Failed to create 1 agents: Bad: boom" := by
  exact ⟨rfl, by decide, by decide⟩

/-- Claim C3 (amended): in a partially failing bulk instantiation the
caller receives only the single consolidated error describing every
failure; the successfully constructed objects are discarded, not
returned. -/
theorem bulk_failure_raises_only (defs : Defs)
    (hfail : (listAgents defs (some { enabled := some true })).filterMap failOf ≠ []) :
    createEnabledAgents defs = .error (failureMessage
      ((listAgents defs (some { enabled := some true })).filterMap failOf)) :=
  createEnabledAgents_error_of_ne defs hfail

/-- Claim C3 witness: the demo store with one success and one failure
yields exactly the consolidated error. -/
theorem bulk_failure_raises_only_witness :
    createEnabledAgents demoMixedDefs = .error (failureMessage
      ((listAgents demoMixedDefs (some { enabled := some true })).filterMap failOf)) :=
  bulk_failure_raises_only demoMixedDefs (by decide)

end AgentCore
